import Mathlib

/-!
A shallow embedding of the cmdFuscator obfuscation engine
( engine/engine.go, models/models.go, the modifier registry in
engine/modifiers/modifier.go and the modifier implementations ),
together with theorems settling the specification claims about
tokenization, rendering, the modifier pipeline and the individual
modifiers.

Modelling conventions:
 - Go strings are modelled as their rune sequences ( `Str := List Char` ).
 - Go `float64` values produced by `strconv.ParseFloat` are modelled as
   exact rationals; the parser below covers finite decimal literals
   (sign, integer/fraction digits, decimal exponent), the forms every
   profile in this repository uses.
 - The process-global pseudo-random source `rand.Float64` is modelled as
   an injected stream `ℕ → ℚ` of draws plus a cursor threaded through
   each call, with the guarantee `0 ≤ draw < 1` stated as a hypothesis
   where a theorem needs it.
 - `json.RawMessage` is modelled as `Option Json`: `none` stands for
   bytes that do not parse as JSON, `some j` for the parsed value.
-/

set_option linter.unusedVariables false

namespace CmdFuscator

/-- Go strings, modelled as their rune sequence. -/
abbrev Str := List Char

/-- Go `unicode.IsSpace`: the Unicode White_Space code points
(`\t \n \v \f \r ' '`, NEL, NBSP, OGHAM SPACE, U+2000..U+200A,
LINE/PARAGRAPH SEPARATOR, NARROW NBSP, MATH SPACE, IDEOGRAPHIC SPACE). -/
def goIsSpace (c : Char) : Bool :=
  c == ' ' || c == '\t' || c == '\n' || c.toNat == 11 || c.toNat == 12 ||
  c == '\r' || c.toNat == 133 || c.toNat == 160 || c.toNat == 5760 ||
  (8192 ≤ c.toNat && c.toNat ≤ 8202) || c.toNat == 8232 ||
  c.toNat == 8233 || c.toNat == 8239 || c.toNat == 8287 || c.toNat == 12288

/-- Worker for `goFields`: `acc` holds the runes of the current field in
reverse, exactly the state of the scanner in Go `strings.Fields`. -/
def fieldsAux : List Char → List Char → List Str
  | [], acc => if acc.isEmpty then [] else [acc.reverse]
  | c :: cs, acc =>
    if goIsSpace c then
      if acc.isEmpty then fieldsAux cs [] else acc.reverse :: fieldsAux cs []
    else
      fieldsAux cs (c :: acc)

/-- Go `strings.Fields`: split around runs of white space, dropping
empty fields. -/
def goFields (s : Str) : List Str := fieldsAux s []

/-- Go `strings.Join` with a separator. -/
def goJoin (sep : Str) : List Str → Str
  | [] => []
  | [x] => x
  | x :: y :: xs => x ++ sep ++ goJoin sep (y :: xs)

/-- Go `strings.TrimSpace`: drop leading and trailing white space. -/
def goTrimSpace (s : Str) : Str :=
  ((s.dropWhile goIsSpace).reverse.dropWhile goIsSpace).reverse

-- ─── Token model (models/models.go) ──────────────────────────────────────────

/-- `models.TokenType`: the semantic role of a command-line element. In Go
this is a string type with five declared constants; the tokenizer and the
modifiers only ever produce these five values. -/
inductive TokenType where
  | command
  | argument
  | value
  | path
  | url
deriving DecidableEq

/-- The string value of each `TokenType` constant, used where Go converts
the type to a string (e.g. the `slices.Contains(cfg.AppliesTo, string(t.Type))`
eligibility check). -/
def TokenType.goString : TokenType → Str
  | .command => "command".toList
  | .argument => "argument".toList
  | .value => "value".toList
  | .path => "path".toList
  | .url => "url".toList

/-- `models.Token`. -/
structure Token where
  type : TokenType
  value : Str
deriving DecidableEq

-- ─── Profile model (models/models.go) ────────────────────────────────────────

/-- A JSON value, the parse result of a `json.RawMessage`. Object fields
are kept in document order. -/
inductive Json where
  | null
  | bool (b : Bool)
  | num (q : ℚ)
  | str (s : Str)
  | arr (elems : List Json)
  | obj (fields : List (String × Json))

/-- `json.RawMessage`: `none` models bytes that are not valid JSON. -/
abbrev RawCfg := Option Json

/-- `models.ArgumentDefinition`. -/
structure ArgumentDefinition where
  flags : List Str
  valueCount : ℕ
deriving Inhabited

/-- `models.ProfileParameters` (the `Command` template field is omitted:
nothing in the engine reads it). -/
structure ProfileParameters where
  arguments : List ArgumentDefinition
  modifiers : List (String × RawCfg)
deriving Inhabited

/-- `models.Profile` (fields the engine reads). -/
structure Profile where
  platform : String
  parameters : ProfileParameters
deriving Inhabited

/-- `models.ProfileFile` (fields the engine reads). -/
structure ProfileFile where
  profiles : List Profile
deriving Inhabited

-- ─── Tokenize / Render / pickProfile (engine/engine.go) ──────────────────────

/-- `engine.Tokenize` (engine.go lines 117-132). The shipped body is the
documented minimal fallback: split on white space, label the first field
`TokenTypeCommand` and every later field `TokenTypeArgument`; the profile
parameter is not consulted. -/
def Tokenize (command : Str) (profile : Profile) : Except String (List Token) :=
  match goFields command with
  | [] => .error "tokenize: empty command"
  | p :: ps =>
    .ok (Token.mk TokenType.command p :: ps.map (fun q => Token.mk TokenType.argument q))

/-- `engine.Render` (engine.go lines 143-149): join the token values with
single spaces. -/
def Render (tokens : List Token) : Str :=
  goJoin (' ' :: []) (tokens.map Token.value)

/-- `engine.pickProfile` (engine.go lines 155-157): returns the first
profile. The Go code indexes `Profiles[0]` behind the caller's non-empty
guard; `headD default` is that access. -/
def pickProfile (pf : ProfileFile) : Profile :=
  pf.profiles.headD default

-- ─── Number parsing (strconv) ────────────────────────────────────────────────

/-- ASCII decimal digit test. -/
def isDigit (c : Char) : Bool := '0' ≤ c && c ≤ '9'

/-- Value of a digit string read left to right. -/
def digitsVal (s : List Char) : ℕ :=
  s.foldl (fun acc c => 10 * acc + (c.toNat - 48)) 0

/-- A non-empty all-digit string parsed as a natural number. -/
def parseNatDigits (s : List Char) : Option ℕ :=
  if s.isEmpty = false && s.all isDigit then some (digitsVal s) else none

/-- Split at the first character satisfying `p`; the second component is
`none` when no such character occurs. -/
def breakOn (p : Char → Bool) : List Char → List Char × Option (List Char)
  | [] => ([], none)
  | c :: cs =>
    if p c then ([], some cs)
    else
      let r := breakOn p cs
      (c :: r.1, r.2)

/-- An optionally signed decimal integer (the body of Go `strconv.Atoi`;
the int64 range check is not modelled, no claim involves values near it). -/
def parseSignedInt (s : Str) : Option ℤ :=
  match s with
  | '+' :: r => (parseNatDigits r).map (fun v => (v : ℤ))
  | '-' :: r => (parseNatDigits r).map (fun v => -(v : ℤ))
  | _ => (parseNatDigits s).map (fun v => (v : ℤ))

/-- Apply an optional decimal exponent suffix to a parsed mantissa. -/
def applyExp (v : ℚ) : Option (List Char) → Option ℚ
  | none => some v
  | some e =>
    match parseSignedInt e with
    | none => none
    | some k => some (v * (10 : ℚ) ^ k)

/-- The leading-sign handling of `strconv.ParseFloat`: the sign factor
and the remainder of the literal. -/
def parseSign (s : Str) : ℚ × Str :=
  match s with
  | '-' :: r => (-1, r)
  | '+' :: r => (1, r)
  | _ => (1, s)

/-- Go `strconv.ParseFloat` on finite decimal literals (optional sign,
digits with an optional fraction part, optional decimal exponent), with
the exact rational value. The special float forms (`Inf`, `NaN`, hex
floats) and round-to-nearest-double are outside this model; every
probability literal in the repository's profiles and tests is a short
decimal, where the model and Go agree exactly. -/
def parseFloat (s : Str) : Option ℚ :=
  let sn := parseSign s
  let me := breakOn (fun c => c == 'e' || c == 'E') sn.2
  let ifr := breakOn (fun c => c == '.') me.1
  if (ifr.1.all isDigit) = false then none
  else
    match ifr.2 with
    | none =>
      match parseNatDigits ifr.1 with
      | none => none
      | some v => applyExp (sn.1 * v) me.2
    | some f =>
      if f.all isDigit && !(ifr.1.isEmpty && f.isEmpty) then
        applyExp (sn.1 * ((digitsVal ifr.1 : ℚ) + (digitsVal f : ℚ) / (10 : ℚ) ^ f.length)) me.2
      else none

/-- Go `strconv.Atoi`. -/
def atoi (s : Str) : Option ℤ := parseSignedInt s

-- ─── JSON decoding (encoding/json conventions) ───────────────────────────────

/-- Look up an object member by key. Go also accepts a case-insensitive
match and lets a later duplicate key win; no profile in this repository
relies on either, and no claim below depends on the difference. -/
def jsonField (fs : List (String × Json)) (k : String) : Option Json :=
  (fs.find? (fun p => p.1 == k)).map (fun p => p.2)

/-- Unmarshal an object member into a Go `string` struct field: absent or
JSON null leaves the zero value, a JSON string sets it, anything else is
a type error. -/
def decodeStrField (fs : List (String × Json)) (k : String) : Except String Str :=
  match jsonField fs k with
  | none => .ok []
  | some Json.null => .ok []
  | some (Json.str s) => .ok s
  | some _ => .error "json: cannot unmarshal value into field of type string"

/-- Elementwise unmarshal of a JSON array into `[]string`. -/
def decodeStrElems : List Json → Except String (List Str)
  | [] => .ok []
  | Json.str s :: rest => (decodeStrElems rest).map (fun t => s :: t)
  | Json.null :: rest => (decodeStrElems rest).map (fun t => [] :: t)
  | _ => .error "json: cannot unmarshal value into element of type string"

/-- Unmarshal an object member into a Go `[]string` struct field. -/
def decodeStrListField (fs : List (String × Json)) (k : String) :
    Except String (List Str) :=
  match jsonField fs k with
  | none => .ok []
  | some Json.null => .ok []
  | some (Json.arr xs) => decodeStrElems xs
  | some _ => .error "json: cannot unmarshal value into field of type string slice"

/-- `models.BaseModifierConfig` after unmarshalling. -/
structure BaseModifierConfig where
  appliesTo : List Str
  probability : Str

/-- `json.Unmarshal` into a struct embedding only `BaseModifierConfig`
(the Config shape of RandomCase and of the simple modifiers): invalid
bytes and non-object values are errors, JSON null is a successful no-op
leaving both zero values. -/
def unmarshalBase (cfg : RawCfg) : Except String BaseModifierConfig :=
  match cfg with
  | none => .error "json: invalid input"
  | some Json.null => .ok ⟨[], []⟩
  | some (Json.obj fs) =>
    match decodeStrListField fs "AppliesTo" with
    | .error e => .error e
    | .ok a =>
      match decodeStrField fs "Probability" with
      | .error e => .error e
      | .ok p => .ok ⟨a, p⟩
  | some _ => .error "json: cannot unmarshal value into Go value of type Config"

/-- The `AppliesTo` set a raw configuration declares, when it decodes. -/
def baseAppliesTo (cfg : RawCfg) : Option (List Str) :=
  match unmarshalBase cfg with
  | .ok b => some b.appliesTo
  | .error _ => none

-- ─── Go unicode fragment (ASCII) ─────────────────────────────────────────────

/-- ASCII fragment of Go `unicode.IsUpper`. The full Unicode case tables
are not modelled; outside ASCII the conversions below act as the
identity. Every concrete token in the claims, profiles and tests is
ASCII. -/
def goIsUpper (c : Char) : Bool := 'A' ≤ c && c ≤ 'Z'

/-- ASCII fragment of Go `unicode.IsLower`. -/
def goIsLower (c : Char) : Bool := 'a' ≤ c && c ≤ 'z'

/-- ASCII fragment of Go `unicode.ToUpper`: raises a lower-case ASCII
letter, leaves everything else alone. -/
def goToUpper (c : Char) : Char :=
  if goIsLower c then Char.ofNat (c.toNat - 32) else c

/-- ASCII fragment of Go `unicode.ToLower`. -/
def goToLower (c : Char) : Char :=
  if goIsUpper c then Char.ofNat (c.toNat + 32) else c

/-- The per-rune transformation RandomCase performs when a draw fires
(random_case.go lines 129-133): an upper-case rune is lowered, any other
rune is upper-cased (a no-op outside lower-case letters). -/
def flipRune (c : Char) : Char :=
  if goIsUpper c then goToLower c else goToUpper c

-- ─── Modifier contract (engine/modifiers/modifier.go) ────────────────────────

/-- The errors an Apply call can report: the registry's ErrNotImplemented
sentinel, or any other error, carried as a tag naming its source. -/
inductive ModError where
  | notImplemented
  | other (tag : String)
deriving DecidableEq

/-- The observable outcome of one `Modifier.Apply` call. `caller` is the
caller's token slice as left after the call — Go slices are mutable
through the parameter, so the translation records explicitly which
storage each body writes; every body below writes only storage it freshly
allocates. `ret` is the returned slice, `err` the returned error, `ctr`
the cursor into the random stream after the call. -/
structure ModOutcome where
  caller : List Token
  ret : List Token
  err : Option ModError
  ctr : ℕ

/-- A registered modifier: its `Name()` and its `Apply`, the latter over
the injected random stream and cursor. -/
structure GoModifier where
  name : String
  apply : (ℕ → ℚ) → ℕ → List Token → RawCfg → ModOutcome

/-- The shared body of the eight stub Apply methods (filepath, optionchar,
quoteinsert, regex, reorderargs, sed, shorthands, urltransform): return
the input slice and ErrNotImplemented, touching nothing. -/
def stubApply : (ℕ → ℚ) → ℕ → List Token → RawCfg → ModOutcome :=
  fun _ ctr tokens _ => ⟨tokens, tokens, some ModError.notImplemented, ctr⟩

-- ─── RandomCase (engine/modifiers/randomcase/random_case.go 106-140) ─────────

/-- The inner per-rune loop of RandomCase.Apply (lines 127-135): one draw
per rune; a draw strictly below the probability flips the rune's case. -/
def caseRunes (rng : ℕ → ℚ) (p : ℚ) : List Char → ℕ → List Char × ℕ
  | [], ctr => ([], ctr)
  | c :: cs, ctr =>
    let c' := if rng ctr < p then flipRune c else c
    let r := caseRunes rng p cs (ctr + 1)
    (c' :: r.1, r.2)

/-- The outer per-token loop of RandomCase.Apply (lines 122-137): `out`
starts as a fresh copy of the input; a token whose type string is in
AppliesTo gets its value rebuilt from the flipped runes, every other
entry keeps the copied token unchanged. -/
def rcLoop (rng : ℕ → ℚ) (p : ℚ) (applies : List Str) :
    List Token → ℕ → List Token × ℕ
  | [], ctr => ([], ctr)
  | t :: ts, ctr =>
    if applies.contains t.type.goString then
      let r1 := caseRunes rng p t.value ctr
      let r2 := rcLoop rng p applies ts r1.2
      (Token.mk t.type r1.1 :: r2.1, r2.2)
    else
      let r := rcLoop rng p applies ts ctr
      (t :: r.1, r.2)

/-- RandomCase.Apply (lines 106-140). Config errors return the input
slice with a non-nil error; on success the rebuilt copy is returned. The
body writes only to the freshly allocated `out` and `runes` arrays
(`make` + `copy`, `[]rune(...)`), never through the `tokens` parameter,
so the caller slice is recorded unchanged. -/
def randomCaseApply (rng : ℕ → ℚ) (ctr : ℕ) (tokens : List Token)
    (cfg : RawCfg) : ModOutcome :=
  match unmarshalBase cfg with
  | .error _ => ⟨tokens, tokens, some (ModError.other "unmarshal config"), ctr⟩
  | .ok cfgM =>
    match parseFloat cfgM.probability with
    | none => ⟨tokens, tokens, some (ModError.other "parse probability"), ctr⟩
    | some probability =>
      if probability < 0 ∨ probability > 1 then
        ⟨tokens, tokens, some (ModError.other "probability must be between 0 and 1"), ctr⟩
      else
        let r := rcLoop rng probability cfgM.appliesTo tokens ctr
        ⟨tokens, r.1, none, r.2⟩

def randomCaseMod : GoModifier := ⟨"RandomCase", randomCaseApply⟩

-- ─── CharacterInsertion (src/unnamed/part_003, the charinsert package) ───────

/-- The charinsert Config after unmarshalling: the base fields plus the
Characters pool and the Offset string. -/
structure CharInsertConfig where
  base : BaseModifierConfig
  characters : List Str
  offset : Str

/-- `json.Unmarshal` into the charinsert Config. -/
def unmarshalCharInsert (cfg : RawCfg) : Except String CharInsertConfig :=
  match cfg with
  | none => .error "json: invalid input"
  | some Json.null => .ok ⟨⟨[], []⟩, [], []⟩
  | some (Json.obj fs) =>
    match decodeStrListField fs "AppliesTo" with
    | .error e => .error e
    | .ok a =>
      match decodeStrField fs "Probability" with
      | .error e => .error e
      | .ok p =>
        match decodeStrListField fs "Characters" with
        | .error e => .error e
        | .ok ch =>
          match decodeStrField fs "Offset" with
          | .error e => .error e
          | .ok off => .ok ⟨⟨a, p⟩, ch, off⟩
  | some _ => .error "json: cannot unmarshal value into Go value of type Config"

/-- CharacterInsertion.Apply (part_003 lines 60-81): unmarshal the config,
validate Probability and Offset, then return ErrNotImplemented. Every
path returns the input slice; the Characters pool is never read, so no
branch can panic on an empty pool. -/
def charInsertApply (rng : ℕ → ℚ) (ctr : ℕ) (tokens : List Token)
    (cfg : RawCfg) : ModOutcome :=
  match unmarshalCharInsert cfg with
  | .error _ => ⟨tokens, tokens, some (ModError.other "unmarshal config"), ctr⟩
  | .ok cfgM =>
    match parseFloat cfgM.base.probability with
    | none => ⟨tokens, tokens, some (ModError.other "parse probability"), ctr⟩
    | some probability =>
      if probability < 0 ∨ probability > 1 then
        ⟨tokens, tokens, some (ModError.other "probability must be between 0 and 1"), ctr⟩
      else
        match atoi cfgM.offset with
        | none => ⟨tokens, tokens, some (ModError.other "parse offset"), ctr⟩
        | some _ => ⟨tokens, tokens, some ModError.notImplemented, ctr⟩

def charInsertMod : GoModifier := ⟨"CharacterInsertion", charInsertApply⟩

-- ─── Registry (engine/modifiers, in registration order) ──────────────────────

def filePathMod : GoModifier := ⟨"FilePathTransformer", stubApply⟩

def optionCharMod : GoModifier := ⟨"OptionCharSubstitution", stubApply⟩

def quoteInsertMod : GoModifier := ⟨"QuoteInsertion", stubApply⟩

def regexMod : GoModifier := ⟨"Regex", stubApply⟩

def reorderArgsMod : GoModifier := ⟨"ReorderArgs", stubApply⟩

def sedMod : GoModifier := ⟨"Sed", stubApply⟩

def shorthandsMod : GoModifier := ⟨"Shorthands", stubApply⟩

def urlTransformMod : GoModifier := ⟨"UrlTransformer", stubApply⟩

/-- `modifiers.All()`: every registered modifier in registration order.
The init functions fire in the import order of the package
engine/modifiers/all: charinsert, filepath, optionchar, quoteinsert,
randomcase, regex, reorderargs, sed, shorthands, urltransform. -/
def registry : List GoModifier :=
  [charInsertMod, filePathMod, optionCharMod, quoteInsertMod, randomCaseMod,
   regexMod, reorderArgsMod, sedMod, shorthandsMod, urlTransformMod]

-- ─── Pipeline orchestrator (engine.Obfuscate, engine.go 49-101) ──────────────

/-- `engine.ObfuscateResult`. The Go `Errors` map is modelled as an
association list keyed by modifier name (each modifier runs at most once,
so keys never repeat). -/
structure ObfuscateResult where
  output : Str
  applied : List String
  skipped : List String
  errors : List (String × ModError)

/-- The loop state of Obfuscate: the working token slice, the three
outcome records and the random-stream cursor. -/
structure PipeState where
  tokens : List Token
  applied : List String
  skipped : List String
  errors : List (String × ModError)
  ctr : ℕ

/-- Lookup in the profile's modifier-config map. -/
def lookupCfg (ms : List (String × RawCfg)) (k : String) : Option RawCfg :=
  (ms.find? (fun p => p.1 == k)).map (fun p => p.2)

/-- One iteration of the Obfuscate modifier loop (engine.go lines 68-92):
skip silently when disabled or unconfigured; on ErrNotImplemented record
under Skipped, on any other error record under Errors, in both cases keep
the working slice the caller-visible slice left by the call; on success
adopt the returned slice and record under Applied. -/
def obfStep (rng : ℕ → ℚ) (enabled : String → Bool)
    (cfgs : List (String × RawCfg)) (st : PipeState) (m : GoModifier) :
    PipeState :=
  if enabled m.name then
    match lookupCfg cfgs m.name with
    | none => st
    | some raw =>
      let o := m.apply rng st.ctr st.tokens raw
      match o.err with
      | some e =>
        if e = ModError.notImplemented then
          { tokens := o.caller, applied := st.applied,
            skipped := st.skipped ++ [m.name], errors := st.errors, ctr := o.ctr }
        else
          { tokens := o.caller, applied := st.applied, skipped := st.skipped,
            errors := st.errors ++ [(m.name, e)], ctr := o.ctr }
      | none =>
        { tokens := o.ret, applied := st.applied ++ [m.name],
          skipped := st.skipped, errors := st.errors, ctr := o.ctr }
  else st

/-- The Obfuscate modifier loop over a list of registered modifiers. -/
def obfLoop (rng : ℕ → ℚ) (enabled : String → Bool)
    (cfgs : List (String × RawCfg)) (ms : List GoModifier) (st : PipeState) :
    PipeState :=
  ms.foldl (obfStep rng enabled cfgs) st

/-- The successful tail of Obfuscate: run the loop over the registry from
the freshly tokenized sequence and render. -/
def obfRun (rng : ℕ → ℚ) (enabled : String → Bool) (pfv : ProfileFile)
    (toks : List Token) : ObfuscateResult :=
  let fin := obfLoop rng enabled (pickProfile pfv).parameters.modifiers
    registry ⟨toks, [], [], [], 0⟩
  ⟨Render fin.tokens, fin.applied, fin.skipped, fin.errors⟩

/-- `Engine.Obfuscate` (engine.go lines 49-101): guard the profile set,
pick a profile, tokenize, run every registered modifier through the loop,
render. -/
def Obfuscate (rng : ℕ → ℚ) (command : Str) (pf : Option ProfileFile)
    (enabled : String → Bool) : Except String ObfuscateResult :=
  match pf with
  | none => .error "engine: no profiles available"
  | some pfv =>
    if pfv.profiles.isEmpty then .error "engine: no profiles available"
    else
      match Tokenize command (pickProfile pfv) with
      | .error e => .error ("engine: tokenize: " ++ e)
      | .ok toks => .ok (obfRun rng enabled pfv toks)

-- ─── Lemmas about fields / join ──────────────────────────────────────────────

theorem fieldsAux_append_nonspace (w rest : List Char) (acc : List Char)
    (hw : ∀ c ∈ w, goIsSpace c = false) :
    fieldsAux (w ++ rest) acc = fieldsAux rest (w.reverse ++ acc) := by
  induction w generalizing acc with
  | nil => simp
  | cons c w ih =>
    have hc : goIsSpace c = false := hw c (List.mem_cons_self c w)
    have hw' : ∀ d ∈ w, goIsSpace d = false := fun d hd => hw d (List.mem_cons_of_mem c hd)
    have h1 : fieldsAux ((c :: w) ++ rest) acc = fieldsAux (w ++ rest) (c :: acc) := by
      simp [fieldsAux, hc]
    rw [h1, ih (c :: acc) hw']
    congr 1
    simp

theorem fieldsAux_ne_nil (s : List Char) (acc : List Char) (hacc : acc ≠ []) :
    fieldsAux s acc ≠ [] := by
  induction s generalizing acc with
  | nil => simp [fieldsAux, hacc]
  | cons c cs ih =>
    by_cases hc : goIsSpace c = true
    · simp [fieldsAux, hc, hacc]
    · simp only [fieldsAux, hc, if_false]
      exact ih (c :: acc) (by simp)

/-- The shape of `goFields` on a single-space-joined list of non-empty,
space-free words. -/
theorem goFields_goJoin (ws : List Str) (hne : ws ≠ [])
    (hw : ∀ w ∈ ws, w ≠ [] ∧ ∀ c ∈ w, goIsSpace c = false) :
    goFields (goJoin (' ' :: []) ws) = ws := by
  induction ws with
  | nil => exact absurd rfl hne
  | cons w ws ih =>
    have hwhead := hw w (List.mem_cons_self w ws)
    have hwrest : ∀ v ∈ ws, v ≠ [] ∧ ∀ c ∈ v, goIsSpace c = false :=
      fun v hv => hw v (List.mem_cons_of_mem w hv)
    cases ws with
    | nil =>
      show fieldsAux w [] = [w]
      have h1 := fieldsAux_append_nonspace w [] [] hwhead.2
      rw [List.append_nil] at h1
      rw [h1]
      simp [fieldsAux, hwhead.1]
    | cons v vs =>
      have hjoin : goJoin (' ' :: []) (w :: v :: vs)
          = w ++ ' ' :: goJoin (' ' :: []) (v :: vs) := by
        simp [goJoin]
      show goFields (goJoin (' ' :: []) (w :: v :: vs)) = w :: v :: vs
      rw [hjoin]
      show fieldsAux (w ++ ' ' :: goJoin (' ' :: []) (v :: vs)) [] = w :: v :: vs
      rw [fieldsAux_append_nonspace w _ [] hwhead.2]
      have hsp : goIsSpace ' ' = true := by decide
      have hne' : ¬ ((w.reverse ++ [] : List Char).isEmpty = true) := by
        simp [hwhead.1]
      simp only [fieldsAux, hsp, if_true]
      rw [if_neg hne']
      simp only [List.append_nil, List.reverse_reverse]
      exact congrArg (w :: ·) (ih (by simp) hwrest)

theorem goFields_eq_nil_iff (s : Str) :
    goFields s = [] ↔ ∀ c ∈ s, goIsSpace c = true := by
  show fieldsAux s [] = [] ↔ _
  induction s with
  | nil => simp [fieldsAux]
  | cons c cs ih =>
    by_cases hc : goIsSpace c = true
    · constructor
      · intro h d hd
        rcases List.mem_cons.mp hd with rfl | hd'
        · exact hc
        · have h' : fieldsAux cs [] = [] := by
            simpa [fieldsAux, hc] using h
          exact ih.mp h' d hd'
      · intro h
        have h' : fieldsAux cs [] = [] := ih.mpr fun d hd => h d (List.mem_cons_of_mem c hd)
        simpa [fieldsAux, hc] using h'
    · constructor
      · intro h
        exact absurd h (by
          simp only [fieldsAux, hc, if_false]
          exact fieldsAux_ne_nil cs (c :: []) (by simp))
      · intro h
        exact absurd (h c (List.mem_cons_self c cs)) hc

theorem goTrimSpace_eq_nil_iff (s : Str) :
    goTrimSpace s = [] ↔ ∀ c ∈ s, goIsSpace c = true := by
  unfold goTrimSpace
  rw [List.reverse_eq_nil_iff, List.dropWhile_eq_nil_iff, ← List.all_eq_true]
  rw [List.all_reverse]
  rw [List.all_eq_true]
  constructor
  · intro h c hc
    by_cases hmem : c ∈ s.dropWhile goIsSpace
    · exact h c hmem
    · have hs : s = s.takeWhile goIsSpace ++ s.dropWhile goIsSpace :=
        (List.takeWhile_append_dropWhile goIsSpace s).symm
      rw [hs] at hc
      rcases List.mem_append.mp hc with h1 | h2
      · exact List.mem_takeWhile_imp h1
      · exact absurd h2 hmem
  · intro h c hc
    exact h c (List.Sublist.mem hc (List.dropWhile_sublist goIsSpace))

-- ─── C1 round-trip theorem ───────────────────────────────────────────────────

/-- C1: round-trip law. Every command string the tokenizer accepts
unmodified — a non-empty single-space-separated join of non-empty fields
containing no white space runes (quote characters are ordinary runes, so
strings with quoted fields are covered) — renders back to itself:
`Render (Tokenize s profile) = s`. -/
theorem render_tokenize_roundtrip (profile : Profile) (ws : List Str)
    (hne : ws ≠ [])
    (hw : ∀ w ∈ ws, w ≠ [] ∧ ∀ c ∈ w, goIsSpace c = false) :
    ∃ ts, Tokenize (goJoin (' ' :: []) ws) profile = .ok ts ∧
      Render ts = goJoin (' ' :: []) ws := by
  have hfields := goFields_goJoin ws hne hw
  cases ws with
  | nil => exact absurd rfl hne
  | cons w ws =>
    refine ⟨Token.mk TokenType.command w :: ws.map (fun q => Token.mk TokenType.argument q),
      ?_, ?_⟩
    · unfold Tokenize
      rw [hfields]
    · unfold Render
      congr 1
      rw [List.map_cons, List.map_map]
      have hmap : List.map (Token.value ∘ fun q => Token.mk TokenType.argument q) ws
          = List.map id ws := rfl
      rw [hmap, List.map_id]

/-- Witness for C1: the round trip at the concrete quoted command line
`copy "my file" C:\out.bin` (a quoted field with an internal space is the
join of two space-free fields). -/
theorem render_tokenize_roundtrip_witness :
    ∃ ts, Tokenize (goJoin (' ' :: [])
        ["copy".toList, "\"my".toList, "file\"".toList, "C:\\out.bin".toList])
        (default : Profile) = .ok ts ∧
      Render ts = goJoin (' ' :: [])
        ["copy".toList, "\"my".toList, "file\"".toList, "C:\\out.bin".toList] := by
  have h := render_tokenize_roundtrip (default : Profile)
    ["copy".toList, "\"my".toList, "file\"".toList, "C:\\out.bin".toList]
    (by decide) (by decide)
  exact h

-- ─── Helper lemmas: config decoding ──────────────────────────────────────────

/-- A raw base-modifier config carrying the given AppliesTo list and
Probability string, the shape every profile uses for RandomCase. -/
def rcRawCfg (applies : List Str) (prob : Str) : RawCfg :=
  some (Json.obj [("AppliesTo", Json.arr (applies.map Json.str)),
                  ("Probability", Json.str prob)])

theorem decodeStrElems_map_str (l : List Str) :
    decodeStrElems (l.map Json.str) = .ok l := by
  induction l with
  | nil => rfl
  | cons s rest ih => simp [decodeStrElems, ih, Except.map]

theorem unmarshalBase_rcRawCfg (a : List Str) (p : Str) :
    unmarshalBase (rcRawCfg a p) = .ok ⟨a, p⟩ := by
  unfold unmarshalBase rcRawCfg
  simp [decodeStrListField, decodeStrField, jsonField, List.find?,
    decodeStrElems_map_str]

-- ─── Helper lemmas: RandomCase loops ─────────────────────────────────────────

theorem caseRunes_never (rng : ℕ → ℚ) (hg : ∀ n, 0 ≤ rng n) (s : List Char) :
    ∀ ctr, (caseRunes rng 0 s ctr).1 = s := by
  induction s with
  | nil => intro ctr; rfl
  | cons c cs ih =>
    intro ctr
    have hlt : ¬ rng ctr < 0 := not_lt.mpr (hg ctr)
    simp [caseRunes, hlt, ih (ctr + 1)]

theorem caseRunes_always (rng : ℕ → ℚ) (hg : ∀ n, rng n < 1) (s : List Char) :
    ∀ ctr, (caseRunes rng 1 s ctr).1 = s.map flipRune := by
  induction s with
  | nil => intro ctr; rfl
  | cons c cs ih =>
    intro ctr
    simp [caseRunes, hg ctr, ih (ctr + 1)]

theorem rcLoop_never (rng : ℕ → ℚ) (hg : ∀ n, 0 ≤ rng n) (applies : List Str)
    (ts : List Token) : ∀ ctr, (rcLoop rng 0 applies ts ctr).1 = ts := by
  induction ts with
  | nil => intro ctr; rfl
  | cons t ts ih =>
    intro ctr
    by_cases hc : t.type.goString ∈ applies
    · simp [rcLoop, hc, caseRunes_never rng hg, ih]
    · simp [rcLoop, hc, ih]

theorem rcLoop_always (rng : ℕ → ℚ) (hg : ∀ n, rng n < 1) (applies : List Str)
    (ts : List Token) :
    ∀ ctr, (rcLoop rng 1 applies ts ctr).1
      = ts.map (fun t => if applies.contains t.type.goString then
          Token.mk t.type (t.value.map flipRune) else t) := by
  induction ts with
  | nil => intro ctr; rfl
  | cons t ts ih =>
    intro ctr
    by_cases hc : t.type.goString ∈ applies
    · simp [rcLoop, hc, caseRunes_always rng hg, ih]
    · simp [rcLoop, hc, ih]

theorem rcLoop_map_type (rng : ℕ → ℚ) (p : ℚ) (applies : List Str)
    (ts : List Token) :
    ∀ ctr, ((rcLoop rng p applies ts ctr).1).map Token.type
      = ts.map Token.type := by
  induction ts with
  | nil => intro ctr; rfl
  | cons t ts ih =>
    intro ctr
    by_cases hc : t.type.goString ∈ applies
    · simp [rcLoop, hc, ih]
    · simp [rcLoop, hc, ih]

theorem rcLoop_get_of_not_applies (rng : ℕ → ℚ) (p : ℚ) (applies : List Str) :
    ∀ (ts : List Token) (ctr i : ℕ) (t : Token), ts[i]? = some t →
      applies.contains t.type.goString = false →
      ((rcLoop rng p applies ts ctr).1)[i]? = some t := by
  intro ts
  induction ts with
  | nil => intro ctr i t h; simp at h
  | cons hd tl ih =>
    intro ctr i t h hcon
    cases i with
    | zero =>
      have hhd : hd = t := by simpa using h
      subst hhd
      have hc : hd.type.goString ∉ applies := by
        simpa using hcon
      simp [rcLoop, hc]
    | succ j =>
      have htail : tl[j]? = some t := by simpa using h
      by_cases hc : hd.type.goString ∈ applies
      · have hstep : (rcLoop rng p applies (hd :: tl) ctr).1
            = Token.mk hd.type (caseRunes rng p hd.value ctr).1
              :: (rcLoop rng p applies tl (caseRunes rng p hd.value ctr).2).1 := by
          simp [rcLoop, hc]
        rw [hstep]
        simpa using ih _ j t htail hcon
      · have hstep : (rcLoop rng p applies (hd :: tl) ctr).1
            = hd :: (rcLoop rng p applies tl ctr).1 := by
          simp [rcLoop, hc]
        rw [hstep]
        simpa using ih _ j t htail hcon

-- ─── Helper lemmas: per-modifier Apply shapes ────────────────────────────────

theorem randomCaseApply_of_unmarshal_error (rng : ℕ → ℚ) (ctr : ℕ)
    (tokens : List Token) (cfg : RawCfg) (e : String)
    (hu : unmarshalBase cfg = .error e) :
    randomCaseApply rng ctr tokens cfg
      = ⟨tokens, tokens, some (ModError.other "unmarshal config"), ctr⟩ := by
  unfold randomCaseApply
  simp only [hu]

theorem randomCaseApply_of_parse_none (rng : ℕ → ℚ) (ctr : ℕ)
    (tokens : List Token) (cfg : RawCfg) (cfgM : BaseModifierConfig)
    (hu : unmarshalBase cfg = .ok cfgM)
    (hp : parseFloat cfgM.probability = none) :
    randomCaseApply rng ctr tokens cfg
      = ⟨tokens, tokens, some (ModError.other "parse probability"), ctr⟩ := by
  unfold randomCaseApply
  simp only [hu, hp]

theorem randomCaseApply_of_out_of_range (rng : ℕ → ℚ) (ctr : ℕ)
    (tokens : List Token) (cfg : RawCfg) (cfgM : BaseModifierConfig) (p : ℚ)
    (hu : unmarshalBase cfg = .ok cfgM)
    (hp : parseFloat cfgM.probability = some p) (hr : p < 0 ∨ p > 1) :
    randomCaseApply rng ctr tokens cfg
      = ⟨tokens, tokens,
         some (ModError.other "probability must be between 0 and 1"), ctr⟩ := by
  unfold randomCaseApply
  simp only [hu, hp]
  rw [if_pos hr]

theorem randomCaseApply_of_valid (rng : ℕ → ℚ) (ctr : ℕ)
    (tokens : List Token) (cfg : RawCfg) (cfgM : BaseModifierConfig) (p : ℚ)
    (hu : unmarshalBase cfg = .ok cfgM)
    (hp : parseFloat cfgM.probability = some p) (hr : ¬(p < 0 ∨ p > 1)) :
    randomCaseApply rng ctr tokens cfg
      = ⟨tokens, (rcLoop rng p cfgM.appliesTo tokens ctr).1, none,
         (rcLoop rng p cfgM.appliesTo tokens ctr).2⟩ := by
  unfold randomCaseApply
  simp only [hu, hp]
  rw [if_neg hr]

theorem randomCaseApply_caller (rng : ℕ → ℚ) (ctr : ℕ) (tokens : List Token)
    (cfg : RawCfg) : (randomCaseApply rng ctr tokens cfg).caller = tokens := by
  rcases hu : unmarshalBase cfg with e | cfgM
  · rw [randomCaseApply_of_unmarshal_error rng ctr tokens cfg e hu]
  · rcases hp : parseFloat cfgM.probability with _ | p
    · rw [randomCaseApply_of_parse_none rng ctr tokens cfg cfgM hu hp]
    · by_cases hr : p < 0 ∨ p > 1
      · rw [randomCaseApply_of_out_of_range rng ctr tokens cfg cfgM p hu hp hr]
      · rw [randomCaseApply_of_valid rng ctr tokens cfg cfgM p hu hp hr]

/-- The configuration is syntactically acceptable to CharacterInsertion:
the JSON decodes, the probability parses and is in range, the offset
parses as an integer. -/
def ciConfigValid (cfg : RawCfg) : Prop :=
  ∃ cfgM p k, unmarshalCharInsert cfg = .ok cfgM ∧
    parseFloat cfgM.base.probability = some p ∧ ¬(p < 0 ∨ p > 1) ∧
    atoi cfgM.offset = some k

theorem charInsertApply_of_unmarshal_error (rng : ℕ → ℚ) (ctr : ℕ)
    (tokens : List Token) (cfg : RawCfg) (e : String)
    (hu : unmarshalCharInsert cfg = .error e) :
    charInsertApply rng ctr tokens cfg
      = ⟨tokens, tokens, some (ModError.other "unmarshal config"), ctr⟩ := by
  unfold charInsertApply
  simp only [hu]

theorem charInsertApply_of_parse_none (rng : ℕ → ℚ) (ctr : ℕ)
    (tokens : List Token) (cfg : RawCfg) (cfgM : CharInsertConfig)
    (hu : unmarshalCharInsert cfg = .ok cfgM)
    (hp : parseFloat cfgM.base.probability = none) :
    charInsertApply rng ctr tokens cfg
      = ⟨tokens, tokens, some (ModError.other "parse probability"), ctr⟩ := by
  unfold charInsertApply
  simp only [hu, hp]

theorem charInsertApply_of_out_of_range (rng : ℕ → ℚ) (ctr : ℕ)
    (tokens : List Token) (cfg : RawCfg) (cfgM : CharInsertConfig) (p : ℚ)
    (hu : unmarshalCharInsert cfg = .ok cfgM)
    (hp : parseFloat cfgM.base.probability = some p) (hr : p < 0 ∨ p > 1) :
    charInsertApply rng ctr tokens cfg
      = ⟨tokens, tokens,
         some (ModError.other "probability must be between 0 and 1"), ctr⟩ := by
  unfold charInsertApply
  simp only [hu, hp]
  rw [if_pos hr]

theorem charInsertApply_of_offset_none (rng : ℕ → ℚ) (ctr : ℕ)
    (tokens : List Token) (cfg : RawCfg) (cfgM : CharInsertConfig) (p : ℚ)
    (hu : unmarshalCharInsert cfg = .ok cfgM)
    (hp : parseFloat cfgM.base.probability = some p) (hr : ¬(p < 0 ∨ p > 1))
    (ho : atoi cfgM.offset = none) :
    charInsertApply rng ctr tokens cfg
      = ⟨tokens, tokens, some (ModError.other "parse offset"), ctr⟩ := by
  unfold charInsertApply
  simp only [hu, hp]
  rw [if_neg hr]
  simp only [ho]

theorem charInsertApply_of_valid (rng : ℕ → ℚ) (ctr : ℕ)
    (tokens : List Token) (cfg : RawCfg) (cfgM : CharInsertConfig) (p : ℚ)
    (k : ℤ) (hu : unmarshalCharInsert cfg = .ok cfgM)
    (hp : parseFloat cfgM.base.probability = some p) (hr : ¬(p < 0 ∨ p > 1))
    (ho : atoi cfgM.offset = some k) :
    charInsertApply rng ctr tokens cfg
      = ⟨tokens, tokens, some ModError.notImplemented, ctr⟩ := by
  unfold charInsertApply
  simp only [hu, hp]
  rw [if_neg hr]
  simp only [ho]

theorem charInsertApply_shape (rng : ℕ → ℚ) (ctr : ℕ) (tokens : List Token)
    (cfg : RawCfg) :
    (charInsertApply rng ctr tokens cfg).caller = tokens ∧
    (charInsertApply rng ctr tokens cfg).ret = tokens ∧
    (∃ e, (charInsertApply rng ctr tokens cfg).err = some e) ∧
    ((charInsertApply rng ctr tokens cfg).err = some ModError.notImplemented ↔
      ciConfigValid cfg) := by
  rcases hu : unmarshalCharInsert cfg with e | cfgM
  · rw [charInsertApply_of_unmarshal_error rng ctr tokens cfg e hu]
    refine ⟨rfl, rfl, ⟨_, rfl⟩, ?_⟩
    constructor
    · intro h
      simp at h
    · rintro ⟨c, p, k, hc, _, _, _⟩
      rw [hu] at hc
      cases hc
  · rcases hp : parseFloat cfgM.base.probability with _ | p
    · rw [charInsertApply_of_parse_none rng ctr tokens cfg cfgM hu hp]
      refine ⟨rfl, rfl, ⟨_, rfl⟩, ?_⟩
      constructor
      · intro h
        simp at h
      · rintro ⟨c, p, k, hc, hpp, _, _⟩
        rw [hu] at hc
        cases hc
        rw [hp] at hpp
        cases hpp
    · by_cases hr : p < 0 ∨ p > 1
      · rw [charInsertApply_of_out_of_range rng ctr tokens cfg cfgM p hu hp hr]
        refine ⟨rfl, rfl, ⟨_, rfl⟩, ?_⟩
        constructor
        · intro h
          simp at h
        · rintro ⟨c, q, k, hc, hpp, hq, _⟩
          rw [hu] at hc
          cases hc
          rw [hp] at hpp
          cases hpp
          exact (hq hr).elim
      · rcases ho : atoi cfgM.offset with _ | k
        · rw [charInsertApply_of_offset_none rng ctr tokens cfg cfgM p hu hp hr ho]
          refine ⟨rfl, rfl, ⟨_, rfl⟩, ?_⟩
          constructor
          · intro h
            simp at h
          · rintro ⟨c, q, k, hc, hpp, hq, hk⟩
            rw [hu] at hc
            cases hc
            rw [ho] at hk
            cases hk
        · rw [charInsertApply_of_valid rng ctr tokens cfg cfgM p k hu hp hr ho]
          refine ⟨rfl, rfl, ⟨_, rfl⟩, ?_⟩
          constructor
          · intro _
            exact ⟨cfgM, p, k, hu, hp, hr, ho⟩
          · intro _
            rfl

/-- Shared fact behind C8 and C3: no registered modifier's Apply writes
through the caller's token slice. -/
theorem registry_caller_unchanged :
    ∀ m ∈ registry, ∀ (rng : ℕ → ℚ) (ctr : ℕ) (tokens : List Token)
      (cfg : RawCfg), (m.apply rng ctr tokens cfg).caller = tokens := by
  intro m hm rng ctr tokens cfg
  simp only [registry, List.mem_cons, List.mem_singleton] at hm
  rcases hm with rfl | rfl | rfl | rfl | rfl | rfl | rfl | rfl | rfl | rfl | h
  · exact (charInsertApply_shape rng ctr tokens cfg).1
  · rfl
  · rfl
  · rfl
  · exact randomCaseApply_caller rng ctr tokens cfg
  · rfl
  · rfl
  · rfl
  · rfl
  · rfl
  · cases h

-- ─── Helper lemmas: concrete probability literals ────────────────────────────

theorem parseFloat_zero_string : parseFloat ("0.0".toList) = some 0 := by
  have hsgn : parseSign ("0.0".toList) = (1, "0.0".toList) := rfl
  have hbe : breakOn (fun c => c == 'e' || c == 'E') ("0.0".toList)
      = ("0.0".toList, none) := by decide
  have hbd : breakOn (fun c => c == '.') ("0.0".toList)
      = (['0'], some ['0']) := by decide
  have hall : (['0'] : List Char).all isDigit = true := by decide
  have hdv : digitsVal ['0'] = 0 := by decide
  simp only [parseFloat, hsgn, hbe, hbd, hall, hdv, applyExp, List.isEmpty_cons,
    Bool.and_false, Bool.false_and, Bool.not_false, Bool.and_true, Bool.true_and]
  norm_num

theorem parseFloat_one_string : parseFloat ("1.0".toList) = some 1 := by
  have hsgn : parseSign ("1.0".toList) = (1, "1.0".toList) := rfl
  have hbe : breakOn (fun c => c == 'e' || c == 'E') ("1.0".toList)
      = ("1.0".toList, none) := by decide
  have hbd : breakOn (fun c => c == '.') ("1.0".toList)
      = (['1'], some ['0']) := by decide
  have hall1 : (['1'] : List Char).all isDigit = true := by decide
  have hall0 : (['0'] : List Char).all isDigit = true := by decide
  have hdv1 : digitsVal ['1'] = 1 := by decide
  have hdv0 : digitsVal ['0'] = 0 := by decide
  simp only [parseFloat, hsgn, hbe, hbd, hall1, hall0, hdv1, hdv0, applyExp,
    List.isEmpty_cons, Bool.and_false, Bool.false_and, Bool.not_false,
    Bool.and_true, Bool.true_and]
  norm_num

theorem baseAppliesTo_rcRawCfg (a : List Str) (p : Str) :
    baseAppliesTo (rcRawCfg a p) = some a := by
  unfold baseAppliesTo
  rw [unmarshalBase_rcRawCfg]

-- ─── C5: RandomCase probability boundary ─────────────────────────────────────

/-- C5: probability boundary for RandomCase.Apply. With Probability "0.0"
every token comes back unchanged on every trial (any draw stream in
[0,1)); with Probability "1.0" every eligible token's value is rebuilt
with every rune case-flipped while runes without case are untouched, and
the eligible Argument token "-urlcache" becomes exactly "-URLCACHE". -/
theorem randomCase_probability_boundary (rng : ℕ → ℚ)
    (hrng : ∀ n, 0 ≤ rng n ∧ rng n < 1) :
    (∀ ctr tokens applies,
      (randomCaseApply rng ctr tokens (rcRawCfg applies ("0.0".toList))).ret
        = tokens) ∧
    (∀ ctr tokens applies,
      (randomCaseApply rng ctr tokens (rcRawCfg applies ("1.0".toList))).ret
        = tokens.map (fun t => if applies.contains t.type.goString then
            Token.mk t.type (t.value.map flipRune) else t)) ∧
    (∀ c, goIsUpper c = false → goIsLower c = false → flipRune c = c) ∧
    ((randomCaseApply rng 0 [Token.mk TokenType.argument ("-urlcache".toList)]
        (rcRawCfg ["argument".toList] ("1.0".toList))).ret
      = [Token.mk TokenType.argument ("-URLCACHE".toList)]) := by
  have hr0 : ¬ ((0 : ℚ) < 0 ∨ (0 : ℚ) > 1) := by norm_num
  have hr1 : ¬ ((1 : ℚ) < 0 ∨ (1 : ℚ) > 1) := by norm_num
  have hzero : ∀ ctr tokens applies,
      (randomCaseApply rng ctr tokens (rcRawCfg applies ("0.0".toList))).ret
        = tokens := by
    intro ctr tokens applies
    rw [randomCaseApply_of_valid rng ctr tokens _ ⟨applies, ("0.0".toList)⟩ 0
      (unmarshalBase_rcRawCfg applies _) parseFloat_zero_string hr0]
    exact rcLoop_never rng (fun n => (hrng n).1) applies tokens ctr
  have hone : ∀ ctr tokens applies,
      (randomCaseApply rng ctr tokens (rcRawCfg applies ("1.0".toList))).ret
        = tokens.map (fun t => if applies.contains t.type.goString then
            Token.mk t.type (t.value.map flipRune) else t) := by
    intro ctr tokens applies
    rw [randomCaseApply_of_valid rng ctr tokens _ ⟨applies, ("1.0".toList)⟩ 1
      (unmarshalBase_rcRawCfg applies _) parseFloat_one_string hr1]
    exact rcLoop_always rng (fun n => (hrng n).2) applies tokens ctr
  refine ⟨hzero, hone, ?_, ?_⟩
  · intro c hu hl
    simp [flipRune, goToUpper, hu, hl]
  · rw [hone 0 _ _]
    decide

/-- Witness for C5 at the all-zero draw stream. -/
theorem randomCase_probability_boundary_witness :
    (randomCaseApply (fun _ => 0) 0
        [Token.mk TokenType.argument ("-urlcache".toList)]
        (rcRawCfg ["argument".toList] ("1.0".toList))).ret
      = [Token.mk TokenType.argument ("-URLCACHE".toList)] :=
  (randomCase_probability_boundary (fun _ => 0) (fun _ => by norm_num)).2.2.2

-- ─── C6: count and type preservation ─────────────────────────────────────────

/-- C6: every registered modifier other than ReorderArgs preserves the
token count and the per-index token type whenever its Apply succeeds;
only the value field is mutated. (ReorderArgs aside, the only Apply that
can succeed in this build is RandomCase's, which rebuilds each entry with
its original type; every other modifier always returns an error, so the
property holds on all success paths.) -/
theorem modifier_count_and_type_preserved :
    ∀ m ∈ registry, m.name ≠ "ReorderArgs" →
    ∀ (rng : ℕ → ℚ) (ctr : ℕ) (tokens : List Token) (cfg : RawCfg),
      (m.apply rng ctr tokens cfg).err = none →
      ((m.apply rng ctr tokens cfg).ret).length = tokens.length ∧
      ((m.apply rng ctr tokens cfg).ret).map Token.type
        = tokens.map Token.type := by
  intro m hm hname rng ctr tokens cfg herr
  simp only [registry, List.mem_cons, List.mem_singleton] at hm
  rcases hm with rfl | rfl | rfl | rfl | rfl | rfl | rfl | rfl | rfl | rfl | h
  · simp only [charInsertMod] at herr
    rcases (charInsertApply_shape rng ctr tokens cfg).2.2.1 with ⟨e, he⟩
    rw [he] at herr
    cases herr
  · simp [filePathMod, stubApply] at herr
  · simp [optionCharMod, stubApply] at herr
  · simp [quoteInsertMod, stubApply] at herr
  · simp only [randomCaseMod] at herr ⊢
    rcases hu : unmarshalBase cfg with e | cfgM
    · rw [randomCaseApply_of_unmarshal_error rng ctr tokens cfg e hu] at herr
      simp at herr
    · rcases hp : parseFloat cfgM.probability with _ | p
      · rw [randomCaseApply_of_parse_none rng ctr tokens cfg cfgM hu hp] at herr
        simp at herr
      · by_cases hr : p < 0 ∨ p > 1
        · rw [randomCaseApply_of_out_of_range rng ctr tokens cfg cfgM p hu hp hr] at herr
          simp at herr
        · rw [randomCaseApply_of_valid rng ctr tokens cfg cfgM p hu hp hr]
          have htype := rcLoop_map_type rng p cfgM.appliesTo tokens ctr
          refine ⟨?_, htype⟩
          have hlen := congrArg List.length htype
          simpa using hlen
  · simp [regexMod, stubApply] at herr
  · exact absurd rfl hname
  · simp [sedMod, stubApply] at herr
  · simp [shorthandsMod, stubApply] at herr
  · simp [urlTransformMod, stubApply] at herr
  · cases h

/-- Witness for C6: RandomCase at probability "1.0" succeeds and keeps
the count and types of a two-token sequence. -/
theorem modifier_count_and_type_preserved_witness :
    ((randomCaseMod.apply (fun _ => 0) 0
        [Token.mk TokenType.command ("certutil.exe".toList),
         Token.mk TokenType.argument ("-urlcache".toList)]
        (rcRawCfg ["argument".toList] ("1.0".toList))).ret).length = 2 ∧
    ((randomCaseMod.apply (fun _ => 0) 0
        [Token.mk TokenType.command ("certutil.exe".toList),
         Token.mk TokenType.argument ("-urlcache".toList)]
        (rcRawCfg ["argument".toList] ("1.0".toList))).ret).map Token.type
      = [TokenType.command, TokenType.argument] := by
  have herr : (randomCaseMod.apply (fun _ => 0) 0
      [Token.mk TokenType.command ("certutil.exe".toList),
       Token.mk TokenType.argument ("-urlcache".toList)]
      (rcRawCfg ["argument".toList] ("1.0".toList))).err = none := by
    simp only [randomCaseMod]
    rw [randomCaseApply_of_valid _ _ _ _ ⟨["argument".toList], ("1.0".toList)⟩ 1
      (unmarshalBase_rcRawCfg _ _) parseFloat_one_string (by norm_num)]
  have h := modifier_count_and_type_preserved randomCaseMod
    (by simp [registry]) (by decide) (fun _ => 0) 0
    [Token.mk TokenType.command ("certutil.exe".toList),
     Token.mk TokenType.argument ("-urlcache".toList)]
    (rcRawCfg ["argument".toList] ("1.0".toList)) herr
  refine ⟨by simpa using h.1, ?_⟩
  rw [h.2]
  rfl

-- ─── C7: eligibility filter ──────────────────────────────────────────────────

/-- C7: for every registered modifier, a token whose type is absent from
the configuration's decoded AppliesTo set comes back unchanged at its
index, whatever the configured probability. -/
theorem modifier_eligibility_filter :
    ∀ m ∈ registry, ∀ (cfg : RawCfg) (A : List Str),
      baseAppliesTo cfg = some A →
      ∀ (rng : ℕ → ℚ) (ctr i : ℕ) (tokens : List Token) (t : Token),
        tokens[i]? = some t → A.contains t.type.goString = false →
        ((m.apply rng ctr tokens cfg).ret)[i]? = some t := by
  intro m hm cfg A hA rng ctr i tokens t ht hcon
  simp only [registry, List.mem_cons, List.mem_singleton] at hm
  rcases hm with rfl | rfl | rfl | rfl | rfl | rfl | rfl | rfl | rfl | rfl | h
  · simp only [charInsertMod]
    rw [(charInsertApply_shape rng ctr tokens cfg).2.1]
    exact ht
  · exact ht
  · exact ht
  · exact ht
  · simp only [randomCaseMod]
    rcases hu : unmarshalBase cfg with e | cfgM
    · rw [randomCaseApply_of_unmarshal_error rng ctr tokens cfg e hu]
      exact ht
    · have hApp : cfgM.appliesTo = A := by
        unfold baseAppliesTo at hA
        rw [hu] at hA
        simpa using hA
      rcases hp : parseFloat cfgM.probability with _ | p
      · rw [randomCaseApply_of_parse_none rng ctr tokens cfg cfgM hu hp]
        exact ht
      · by_cases hr : p < 0 ∨ p > 1
        · rw [randomCaseApply_of_out_of_range rng ctr tokens cfg cfgM p hu hp hr]
          exact ht
        · rw [randomCaseApply_of_valid rng ctr tokens cfg cfgM p hu hp hr]
          show ((rcLoop rng p cfgM.appliesTo tokens ctr).1)[i]? = some t
          rw [hApp]
          exact rcLoop_get_of_not_applies rng p A tokens ctr i t ht hcon
  · exact ht
  · exact ht
  · exact ht
  · exact ht
  · exact ht
  · cases h

/-- Witness for C7: RandomCase at probability "1.0" leaves a Command
token alone when AppliesTo only names "argument". -/
theorem modifier_eligibility_filter_witness :
    ((randomCaseMod.apply (fun _ => 0) 0
        [Token.mk TokenType.command ("certutil.exe".toList),
         Token.mk TokenType.argument ("-urlcache".toList)]
        (rcRawCfg ["argument".toList] ("1.0".toList))).ret)[0]?
      = some (Token.mk TokenType.command ("certutil.exe".toList)) := by
  have h := modifier_eligibility_filter randomCaseMod (by simp [registry])
    (rcRawCfg ["argument".toList] ("1.0".toList)) ["argument".toList]
    (baseAppliesTo_rcRawCfg ["argument".toList] ("1.0".toList))
    (fun _ => 0) 0 0
    [Token.mk TokenType.command ("certutil.exe".toList),
     Token.mk TokenType.argument ("-urlcache".toList)]
    (Token.mk TokenType.command ("certutil.exe".toList)) (by decide) (by decide)
  exact h

-- ─── C8: non-mutation of caller input ────────────────────────────────────────

/-- C8: for every registered modifier, the token slice passed into Apply
is element-for-element unchanged after the call: every body writes only
storage it freshly allocates, so the caller-visible slice recorded by the
translation is the input itself. -/
theorem modifier_caller_input_unchanged :
    ∀ m ∈ registry, ∀ (rng : ℕ → ℚ) (ctr : ℕ) (tokens : List Token)
      (cfg : RawCfg), (m.apply rng ctr tokens cfg).caller = tokens :=
  registry_caller_unchanged

/-- Witness for C8: RandomCase at probability "1.0" leaves its caller's
slice untouched. -/
theorem modifier_caller_input_unchanged_witness :
    (randomCaseMod.apply (fun _ => 0) 0
        [Token.mk TokenType.argument ("-urlcache".toList)]
        (rcRawCfg ["argument".toList] ("1.0".toList))).caller
      = [Token.mk TokenType.argument ("-urlcache".toList)] :=
  modifier_caller_input_unchanged randomCaseMod (by simp [registry])
    (fun _ => 0) 0 [Token.mk TokenType.argument ("-urlcache".toList)]
    (rcRawCfg ["argument".toList] ("1.0".toList))

-- ─── C3: modifier fault containment in the pipeline loop ─────────────────────

/-- C3: in the Obfuscate loop, an enabled, configured modifier whose
Apply errors leaves the working token sequence unchanged and the loop
proceeds to the remaining modifiers; ErrNotImplemented is recorded under
Skipped, any other error under Errors keyed by the modifier's name; a
successful Apply replaces the working sequence with the returned one and
is recorded under Applied. -/
theorem obfuscate_fault_containment :
    ∀ m ∈ registry, ∀ (rng : ℕ → ℚ) (enabled : String → Bool)
      (cfgs : List (String × RawCfg)) (st : PipeState)
      (rest : List GoModifier) (raw : RawCfg),
      enabled m.name = true → lookupCfg cfgs m.name = some raw →
    (obfLoop rng enabled cfgs (m :: rest) st
      = obfLoop rng enabled cfgs rest (obfStep rng enabled cfgs st m)) ∧
    (∀ e, (m.apply rng st.ctr st.tokens raw).err = some e →
      (obfStep rng enabled cfgs st m).tokens = st.tokens ∧
      (obfStep rng enabled cfgs st m).applied = st.applied ∧
      (e = ModError.notImplemented →
        (obfStep rng enabled cfgs st m).skipped = st.skipped ++ [m.name] ∧
        (obfStep rng enabled cfgs st m).errors = st.errors) ∧
      (e ≠ ModError.notImplemented →
        (obfStep rng enabled cfgs st m).errors = st.errors ++ [(m.name, e)] ∧
        (obfStep rng enabled cfgs st m).skipped = st.skipped)) ∧
    ((m.apply rng st.ctr st.tokens raw).err = none →
      (obfStep rng enabled cfgs st m).tokens
        = (m.apply rng st.ctr st.tokens raw).ret ∧
      (obfStep rng enabled cfgs st m).applied = st.applied ++ [m.name]) := by
  intro m hm rng enabled cfgs st rest raw hen hcfg
  have hcaller := registry_caller_unchanged m hm rng st.ctr st.tokens raw
  refine ⟨rfl, ?_, ?_⟩
  · intro e he
    by_cases hni : e = ModError.notImplemented
    · subst hni
      have hstep : obfStep rng enabled cfgs st m
          = { tokens := (m.apply rng st.ctr st.tokens raw).caller,
              applied := st.applied, skipped := st.skipped ++ [m.name],
              errors := st.errors,
              ctr := (m.apply rng st.ctr st.tokens raw).ctr } := by
        simp [obfStep, hen, hcfg, he]
      rw [hstep, hcaller]
      exact ⟨rfl, rfl, fun _ => ⟨rfl, rfl⟩, fun hne => absurd rfl hne⟩
    · have hstep : obfStep rng enabled cfgs st m
          = { tokens := (m.apply rng st.ctr st.tokens raw).caller,
              applied := st.applied, skipped := st.skipped,
              errors := st.errors ++ [(m.name, e)],
              ctr := (m.apply rng st.ctr st.tokens raw).ctr } := by
        simp [obfStep, hen, hcfg, he, hni]
      rw [hstep, hcaller]
      exact ⟨rfl, rfl, fun hq => absurd hq hni, fun _ => ⟨rfl, rfl⟩⟩
  · intro he
    have hstep : obfStep rng enabled cfgs st m
        = { tokens := (m.apply rng st.ctr st.tokens raw).ret,
            applied := st.applied ++ [m.name], skipped := st.skipped,
            errors := st.errors,
            ctr := (m.apply rng st.ctr st.tokens raw).ctr } := by
      simp [obfStep, hen, hcfg, he]
    rw [hstep]
    exact ⟨rfl, rfl⟩

/-- Witness for C3: the ReorderArgs stub, enabled and configured, is
recorded under Skipped and leaves the working sequence unchanged. -/
theorem obfuscate_fault_containment_witness :
    (obfStep (fun _ => 0) (fun _ => true) [("ReorderArgs", some Json.null)]
        ⟨[Token.mk TokenType.argument ("-f".toList)], [], [], [], 0⟩
        reorderArgsMod).tokens
      = [Token.mk TokenType.argument ("-f".toList)] ∧
    (obfStep (fun _ => 0) (fun _ => true) [("ReorderArgs", some Json.null)]
        ⟨[Token.mk TokenType.argument ("-f".toList)], [], [], [], 0⟩
        reorderArgsMod).skipped = ["ReorderArgs"] := by
  have h := obfuscate_fault_containment reorderArgsMod (by simp [registry])
    (fun _ => 0) (fun _ => true) [("ReorderArgs", some Json.null)]
    ⟨[Token.mk TokenType.argument ("-f".toList)], [], [], [], 0⟩ []
    (some Json.null) rfl rfl
  have h2 := h.2.1 ModError.notImplemented rfl
  exact ⟨h2.1, by simpa using (h2.2.2.1 rfl).1⟩

-- ─── C4: hard failure only on input defects ──────────────────────────────────

/-- C4: Obfuscate returns an error exactly when the profile set is
missing or empty or the trimmed command is empty (so the field split is
empty); once tokenization succeeds the call returns ok, with modifier
faults confined to the result's Skipped and Errors records. -/
theorem obfuscate_hard_failure_iff (rng : ℕ → ℚ) (command : Str)
    (pf : Option ProfileFile) (enabled : String → Bool) :
    ((∃ e, Obfuscate rng command pf enabled = .error e) ↔
      (pf = none ∨ (∃ pfv, pf = some pfv ∧ pfv.profiles = []) ∨
        goTrimSpace command = [])) ∧
    (∀ (pfv : ProfileFile) (ts : List Token), pf = some pfv →
      pfv.profiles ≠ [] → Tokenize command (pickProfile pfv) = .ok ts →
      ∃ r, Obfuscate rng command pf enabled = .ok r) := by
  have hft : goFields command = [] ↔ goTrimSpace command = [] := by
    rw [goFields_eq_nil_iff, goTrimSpace_eq_nil_iff]
  cases pf with
  | none =>
    refine ⟨⟨fun _ => Or.inl rfl, fun _ => ⟨_, rfl⟩⟩, ?_⟩
    intro pfv ts hpf
    cases hpf
  | some pfv =>
    by_cases hpe : pfv.profiles.isEmpty = true
    · have herr : Obfuscate rng command (some pfv) enabled
          = .error "engine: no profiles available" := by
        simp [Obfuscate, hpe]
      refine ⟨⟨fun _ => Or.inr (Or.inl ⟨pfv, rfl, List.isEmpty_iff.mp hpe⟩),
        fun _ => ⟨_, herr⟩⟩, ?_⟩
      intro pfv' ts hpf hne
      cases hpf
      exact absurd (List.isEmpty_iff.mp hpe) hne
    · cases hf : goFields command with
      | nil =>
        have herr : Obfuscate rng command (some pfv) enabled
            = .error ("engine: tokenize: " ++ "tokenize: empty command") := by
          simp [Obfuscate, Tokenize, hpe, hf]
        refine ⟨⟨fun _ => Or.inr (Or.inr (hft.mp hf)), fun _ => ⟨_, herr⟩⟩, ?_⟩
        intro pfv' ts hpf hne htok
        cases hpf
        unfold Tokenize at htok
        rw [hf] at htok
        cases htok
      | cons w ws =>
        have hok : Obfuscate rng command (some pfv) enabled
            = .ok (obfRun rng enabled pfv
                (Token.mk TokenType.command w
                  :: ws.map (fun q => Token.mk TokenType.argument q))) := by
          simp [Obfuscate, Tokenize, hpe, hf]
        constructor
        · constructor
          · rintro ⟨e, he⟩
            rw [hok] at he
            cases he
          · rintro (h | ⟨pfv', hp, hemp⟩ | htr)
            · cases h
            · cases hp
              rw [List.isEmpty_iff] at hpe
              exact absurd hemp hpe
            · rw [← hft] at htr
              rw [htr] at hf
              cases hf
        · intro pfv' ts hpf hne htok
          exact ⟨_, hok⟩

/-- Witness for C4: a one-profile set and a non-empty command produce an
ok result. -/
theorem obfuscate_hard_failure_iff_witness :
    ∃ r, Obfuscate (fun _ => 0) ("certutil.exe -urlcache".toList)
        (some ⟨[⟨"windows", ⟨[], []⟩⟩]⟩) (fun _ => false) = .ok r := by
  refine (obfuscate_hard_failure_iff (fun _ => 0)
    ("certutil.exe -urlcache".toList) (some ⟨[⟨"windows", ⟨[], []⟩⟩]⟩)
    (fun _ => false)).2 ⟨[⟨"windows", ⟨[], []⟩⟩]⟩
    [Token.mk TokenType.command ("certutil.exe".toList),
     Token.mk TokenType.argument ("-urlcache".toList)] rfl (by simp) ?_
  rfl

-- ─── C10: CharacterInsertion stub behaviour ──────────────────────────────────

theorem obfStep_applied_cases (rng : ℕ → ℚ) (enabled : String → Bool)
    (cfgs : List (String × RawCfg)) (st : PipeState) (m : GoModifier) :
    (obfStep rng enabled cfgs st m).applied = st.applied ∨
    ((obfStep rng enabled cfgs st m).applied = st.applied ++ [m.name] ∧
      ∃ raw, lookupCfg cfgs m.name = some raw ∧
        (m.apply rng st.ctr st.tokens raw).err = none) := by
  by_cases hen : enabled m.name = true
  · cases hcf : lookupCfg cfgs m.name with
    | none =>
      left
      simp [obfStep, hen, hcf]
    | some raw =>
      cases he : (m.apply rng st.ctr st.tokens raw).err with
      | none =>
        right
        exact ⟨by simp [obfStep, hen, hcf, he], ⟨raw, rfl, he⟩⟩
      | some e =>
        left
        by_cases hni : e = ModError.notImplemented
        · simp [obfStep, hen, hcf, he, hni]
        · simp [obfStep, hen, hcf, he, hni]
  · left
    simp [obfStep, hen]

theorem obfLoop_no_applied (rng : ℕ → ℚ) (enabled : String → Bool)
    (cfgs : List (String × RawCfg)) (nm : String) :
    ∀ (ms : List GoModifier) (st : PipeState),
      (∀ m ∈ ms, m.name = nm → ∀ (ctr : ℕ) (tk : List Token) (cfgr : RawCfg),
        (m.apply rng ctr tk cfgr).err ≠ none) →
      nm ∉ st.applied → nm ∉ (obfLoop rng enabled cfgs ms st).applied := by
  intro ms
  induction ms with
  | nil => intro st h hmem; exact hmem
  | cons m rest ih =>
    intro st h hmem
    show nm ∉ (obfLoop rng enabled cfgs rest (obfStep rng enabled cfgs st m)).applied
    refine ih _ (fun m' hm' => h m' (List.mem_cons_of_mem m hm')) ?_
    rcases obfStep_applied_cases rng enabled cfgs st m with heq | ⟨heq, raw, hcf, he⟩
    · rw [heq]; exact hmem
    · by_cases hnm : m.name = nm
      · exact absurd he (h m (List.mem_cons_self m rest) hnm st.ctr st.tokens raw)
      · rw [heq]
        simp only [List.mem_append, List.mem_singleton]
        rintro (hin | hin)
        · exact hmem hin
        · exact hnm hin.symm

/-- C10: CharacterInsertion.Apply always returns its input token slice
together with a non-nil error — ErrNotImplemented exactly when the JSON
decodes, the probability parses into [0,1] and the offset parses as an
integer, a parse/validation error otherwise — it never mutates a token,
never touches the Characters pool, and is never recorded under Applied
by a successful Obfuscate run. -/
theorem charInsert_stub_behavior :
    (∀ (rng : ℕ → ℚ) (ctr : ℕ) (tokens : List Token) (cfg : RawCfg),
      (charInsertApply rng ctr tokens cfg).ret = tokens ∧
      (charInsertApply rng ctr tokens cfg).caller = tokens ∧
      ∃ e, (charInsertApply rng ctr tokens cfg).err = some e) ∧
    (∀ (rng : ℕ → ℚ) (ctr : ℕ) (tokens : List Token) (cfg : RawCfg),
      ((charInsertApply rng ctr tokens cfg).err = some ModError.notImplemented
        ↔ ciConfigValid cfg)) ∧
    (∀ (rng : ℕ → ℚ) (command : Str) (pf : Option ProfileFile)
      (enabled : String → Bool) (r : ObfuscateResult),
      Obfuscate rng command pf enabled = .ok r →
      ("CharacterInsertion" : String) ∉ r.applied) := by
  refine ⟨?_, ?_, ?_⟩
  · intro rng ctr tokens cfg
    obtain ⟨h1, h2, h3, _⟩ := charInsertApply_shape rng ctr tokens cfg
    exact ⟨h2, h1, h3⟩
  · intro rng ctr tokens cfg
    exact (charInsertApply_shape rng ctr tokens cfg).2.2.2
  · intro rng command pf enabled r hok
    have hreg : ∀ m ∈ registry, m.name = "CharacterInsertion" →
        ∀ (ctr : ℕ) (tk : List Token) (cfgr : RawCfg),
          (m.apply rng ctr tk cfgr).err ≠ none := by
      intro m hm hnm ctr tk cfgr
      simp only [registry, List.mem_cons, List.mem_singleton] at hm
      rcases hm with rfl | rfl | rfl | rfl | rfl | rfl | rfl | rfl | rfl | rfl | h
      · rcases (charInsertApply_shape rng ctr tk cfgr).2.2.1 with ⟨e, he⟩
        intro hnone
        simp only [charInsertMod] at hnone
        rw [he] at hnone
        cases hnone
      · exact absurd hnm (by decide)
      · exact absurd hnm (by decide)
      · exact absurd hnm (by decide)
      · exact absurd hnm (by decide)
      · exact absurd hnm (by decide)
      · exact absurd hnm (by decide)
      · exact absurd hnm (by decide)
      · exact absurd hnm (by decide)
      · exact absurd hnm (by decide)
      · cases h
    cases pf with
    | none => cases hok
    | some pfv =>
      by_cases hpe : pfv.profiles.isEmpty = true
      · have : Obfuscate rng command (some pfv) enabled
            = .error "engine: no profiles available" := by
          simp [Obfuscate, hpe]
        rw [this] at hok
        cases hok
      · cases hf : goFields command with
        | nil =>
          have : Obfuscate rng command (some pfv) enabled
              = .error ("engine: tokenize: " ++ "tokenize: empty command") := by
            simp [Obfuscate, Tokenize, hpe, hf]
          rw [this] at hok
          cases hok
        | cons w ws =>
          have hok2 : Obfuscate rng command (some pfv) enabled
              = .ok (obfRun rng enabled pfv
                  (Token.mk TokenType.command w
                    :: ws.map (fun q => Token.mk TokenType.argument q))) := by
            simp [Obfuscate, Tokenize, hpe, hf]
          rw [hok2] at hok
          cases hok
          exact obfLoop_no_applied rng enabled
            (pickProfile pfv).parameters.modifiers "CharacterInsertion"
            registry _ hreg (by simp)

/-- Witness for C10: CharacterInsertion returns malformed raw bytes
untouched, and a concrete successful run never lists it under Applied. -/
theorem charInsert_stub_behavior_witness :
    (charInsertApply (fun _ => 0) 0
        [Token.mk TokenType.argument ("-f".toList)] none).ret
      = [Token.mk TokenType.argument ("-f".toList)] ∧
    ("CharacterInsertion" : String) ∉
      (ObfuscateResult.mk ("a".toList) [] [] []).applied := by
  constructor
  · exact (charInsert_stub_behavior.1 (fun _ => 0) 0
      [Token.mk TokenType.argument ("-f".toList)] none).1
  · exact charInsert_stub_behavior.2.2 (fun _ => 0) ("a".toList)
      (some ⟨[⟨"windows", ⟨[], []⟩⟩]⟩) (fun _ => false)
      (ObfuscateResult.mk ("a".toList) [] [] []) rfl

-- ─── C2: tokenizer classification at Scenario A ──────────────────────────────

/-- The Scenario A profile: flag "-f" declared with valueCount 1. -/
def scenarioAProfile : Profile :=
  ⟨"windows", ⟨[⟨["-f".toList], 1⟩], []⟩⟩

/-- C2 evidence: at the Scenario A input the shipped fallback Tokenize
labels every field after the first as an Argument token — no flag/value
binding and no URL or path content classification happens, so the URL
field is an Argument token where the spec requires a Value token. -/
theorem tokenize_scenarioA_all_arguments :
    Tokenize ("certutil.exe -urlcache -f https://example.com output.bin".toList)
      scenarioAProfile
      = .ok [Token.mk TokenType.command ("certutil.exe".toList),
             Token.mk TokenType.argument ("-urlcache".toList),
             Token.mk TokenType.argument ("-f".toList),
             Token.mk TokenType.argument ("https://example.com".toList),
             Token.mk TokenType.argument ("output.bin".toList)] := rfl

-- ─── C9: profile selection policy ────────────────────────────────────────────

/-- Modelled from the spec: the selection policy the spec describes —
the first variant whose platform matches the host platform, else the
first variant overall. The shipped `pickProfile` takes no host parameter
and returns the first profile unconditionally. -/
def specPickProfile (host : String) (pf : ProfileFile) : Profile :=
  (pf.profiles.find? (fun p => p.platform == host)).getD
    (pf.profiles.headD default)

/-- A two-variant profile set: a windows variant first, a linux variant
second. -/
def pfC9 : ProfileFile :=
  ⟨[⟨"windows", ⟨[], []⟩⟩, ⟨"linux", ⟨[], []⟩⟩]⟩

/-- C9 counterexample: on a linux host and a profile set whose second
variant is the linux one, the spec's policy selects the linux variant but
`pickProfile` returns the windows one — the code never consults the
platform. -/
theorem pickProfile_platform_counterexample :
    (pickProfile pfC9).platform = "windows" ∧
    (specPickProfile ("linux") pfC9).platform = "linux" ∧
    pickProfile pfC9 ≠ specPickProfile ("linux") pfC9 := by
  have h1 : (pickProfile pfC9).platform = "windows" := rfl
  have h2 : (specPickProfile ("linux") pfC9).platform = "linux" := rfl
  refine ⟨h1, h2, ?_⟩
  intro h
  have hp := congrArg Profile.platform h
  rw [h1, h2] at hp
  exact absurd hp (by decide)

/-- C9 amended: Obfuscate's profile selection depends only on the first
variant in the set — it operates on the first profile unconditionally and
performs no platform matching. -/
theorem obfuscate_uses_first_profile (rng : ℕ → ℚ) (command : Str)
    (enabled : String → Bool) (pf1 pf2 : ProfileFile)
    (hhead : pf1.profiles.head? = pf2.profiles.head?) :
    Obfuscate rng command (some pf1) enabled
      = Obfuscate rng command (some pf2) enabled := by
  obtain ⟨ps1⟩ := pf1
  obtain ⟨ps2⟩ := pf2
  cases ps1 with
  | nil =>
    cases ps2 with
    | nil => rfl
    | cons b t2 => simp [ProfileFile.profiles] at hhead
  | cons a t1 =>
    cases ps2 with
    | nil => simp [ProfileFile.profiles] at hhead
    | cons b t2 =>
      have hab : a = b := by simpa [ProfileFile.profiles] using hhead
      subst hab
      rfl

/-- Witness for C9's amended claim: two profile sets sharing their first
variant produce identical results, whatever follows. -/
theorem obfuscate_uses_first_profile_witness :
    Obfuscate (fun _ => 0) ("a".toList) (some pfC9) (fun _ => false)
      = Obfuscate (fun _ => 0) ("a".toList)
          (some ⟨[⟨"windows", ⟨[], []⟩⟩]⟩) (fun _ => false) :=
  obfuscate_uses_first_profile (fun _ => 0) ("a".toList) (fun _ => false)
    pfC9 ⟨[⟨"windows", ⟨[], []⟩⟩]⟩ rfl

end CmdFuscator
